import Mathlib

/-!
Shallow embedding of the jamle expansion engine (src/jamle.go).

Strings are modelled as `List Char`; the process environment
(`os.LookupEnv` / `os.Setenv`) is modelled as an association list threaded
explicitly through the functions that the Go code lets mutate it.
-/

namespace Jamle

/-- Process environment: ordered association list from name to value,
modelling the process-wide variable store accessed via os.LookupEnv and
os.Setenv. -/
abbrev Env := List (List Char × List Char)

/-- Characters that the source writes as literal braces; named so that the
brace appears nowhere outside string data. -/
def braceL : Char := Char.ofNat 123

def braceR : Char := Char.ofNat 125

def dollar : Char := '$'

def colonC : Char := ':'

/-- Placeholder `maskStart = "\x00"` from the source, as a character. -/
def maskStartC : Char := Char.ofNat 0

/-- Placeholder `maskEnd = "\x01"` from the source, as a character. -/
def maskEndC : Char := Char.ofNat 1

/-- Embedding of `os.LookupEnv`: first binding of the name wins. -/
def lookupEnv : Env → List Char → Option (List Char)
  | [], _ => none
  | (k, v) :: rest, n => if k = n then some v else lookupEnv rest n

/-- Embedding of `os.Setenv`: overwrite the first binding of the name, or
append a fresh binding. The modelled call never fails, so the source's
`failed to set env var` branch is dead in the model. -/
def setenv : Env → List Char → List Char → Env
  | [], n, d => [(n, d)]
  | (k, v) :: rest, n, d =>
    if k = n then (n, d) :: rest else (k, v) :: setenv rest n d

/-- Embedding of `strings.Cut(content, ":")`: split at the first colon,
returning (before, after, found). -/
def cutColon : List Char → List Char × List Char × Bool
  | [] => ([], [], false)
  | c :: rest =>
    if c = colonC then ([], rest, true)
    else
      let p := cutColon rest
      (c :: p.1, p.2.1, p.2.2)

/-- Default message used by the `:?` operator when its operand is empty. -/
def defaultReqMsg : List Char := "is not set or empty".data

/-- Error text of `fmt.Errorf("environment variable %q %s", name, msg)`.
Go's %q is modelled as plain double quoting, which agrees with %q on names
made of ordinary printable characters (the only names the program's
references use). -/
def requiredErr (name msg : List Char) : List Char :=
  "environment variable \"".data ++ name ++ "\" ".data ++ msg

/-- Embedding of `resolveVariable` (src/jamle.go lines 184-253): parses the
content inside a reference and applies Bash-style logic, returning the
replacement text and the possibly-updated environment, or the error text. -/
def resolveVariable (env : Env) (content : List Char) :
    Except (List Char) (List Char × Env) :=
  let p := cutColon content
  let name := p.1
  let val := p.2.1
  let hasColon := p.2.2
  let envVal := lookupEnv env name
  if hasColon = false then
    -- Case 1: simple variable
    match envVal with
    | some v => .ok (v, env)
    | none => .ok ([], env)
  else if val = [] then
    -- Case 2: variable with empty default
    match envVal with
    | some v => .ok (v, env)
    | none => .ok ([], env)
  else
    -- Case 3: variable with operator and value
    match val with
    | [] => .ok ([], env)
    | c :: restVal =>
      let opD : Char × List Char :=
        if c = '-' ∨ c = '=' ∨ c = '?' then (c, restVal) else ('-', val)
      let op := opD.1
      let defaultVal := opD.2
      if op = '-' then
        match envVal with
        | some v => if v = [] then .ok (defaultVal, env) else .ok (v, env)
        | none => .ok (defaultVal, env)
      else if op = '=' then
        match envVal with
        | some v =>
          if v = [] then .ok (defaultVal, setenv env name defaultVal)
          else .ok (v, env)
        | none => .ok (defaultVal, setenv env name defaultVal)
      else
        match envVal with
        | some v =>
          if v = [] then
            .error (requiredErr name
              (if defaultVal = [] then defaultReqMsg else defaultVal))
          else .ok (v, env)
        | none =>
          .error (requiredErr name
            (if defaultVal = [] then defaultReqMsg else defaultVal))

/-- Longest prefix of brace-free characters, with the remainder.  This is
the greedy `[^{}]+` piece of the source's `envVarRegex`. -/
def takeNonBrace : List Char → List Char × List Char
  | [] => ([], [])
  | c :: rest =>
    if c = braceL ∨ c = braceR then ([], c :: rest)
    else
      let p := takeNonBrace rest
      (c :: p.1, p.2)

/-- Matching of the body of an innermost reference: given the text after
an opening `sigil{`, Go's `\$\{([^{}]+)\}` matches there exactly when a
non-empty brace-free run is followed by a closing brace.  Returns the
captured content and the text after the closing brace, the latter bundled
with the length bound that drives termination of the scanners below. -/
structure BodyMatch (rest : List Char) where
  content : List Char
  after : List Char
  bound : after.length + 2 ≤ rest.length

def matchBody (rest : List Char) : Option (BodyMatch rest) :=
  match hrest : takeNonBrace rest with
  | ([], _) => none
  | (c0 :: content, c :: after) =>
    if hc : c = braceR then
      some ⟨c0 :: content, after, by
        have key : ∀ t : List Char,
            (takeNonBrace t).1.length + (takeNonBrace t).2.length = t.length := by
          intro t
          induction t with
          | nil => simp [takeNonBrace]
          | cons a r ih =>
            by_cases hb : a = braceL ∨ a = braceR
            · simp [takeNonBrace, hb]
            · simp only [takeNonBrace, if_neg hb, List.length_cons]
              omega
        have hk := key rest
        rw [hrest] at hk
        simp only [List.length_cons] at hk
        omega⟩
    else none
  | (_ :: _, []) => none

/-- State threaded through one replacement pass: the environment plus the
`resolveErr` slot captured by the closure in `expandEnvInScalar`. -/
structure RState where
  env : Env
  err : Option (List Char)
deriving DecidableEq

/-- Action of the closure passed to `envVarRegex.ReplaceAllStringFunc`:
once an error is recorded the match is returned verbatim; otherwise the
content is resolved, recording the first error and leaving the match text
in place when resolution fails. -/
def applyVar (st : RState) (content : List Char) : RState × List Char :=
  match st.err with
  | some _ => (st, dollar :: braceL :: (content ++ [braceR]))
  | none =>
    match resolveVariable st.env content with
    | .ok (v, env1) => (⟨env1, none⟩, v)
    | .error e => (⟨st.env, some e⟩, dollar :: braceL :: (content ++ [braceR]))

/-- Embedding of `envVarRegex.ReplaceAllStringFunc` with the resolving
closure: scan left to right, replace every non-overlapping innermost
reference, and thread the environment and first-error state through the
matches in order. -/
def envReplace (st : RState) : List Char → RState × List Char
  | [] => (st, [])
  | c :: rest =>
    if c = dollar then
      match rest with
      | [] => (st, [c])
      | c2 :: rest2 =>
        if c2 = braceL then
          match matchBody rest2 with
          | some ⟨content, after, hp⟩ =>
            let p := applyVar st content
            let q := envReplace p.1 after
            (q.1, p.2 ++ q.2)
          | none =>
            let q := envReplace st (c2 :: rest2)
            (q.1, c :: q.2)
        else
          let q := envReplace st (c2 :: rest2)
          (q.1, c :: q.2)
    else
      let q := envReplace st rest
      (q.1, c :: q.2)
termination_by s => s.length
decreasing_by
  all_goals simp only [List.length_cons]
  all_goals omega

/-- Embedding of `envVarRegex.MatchString`: does the text contain an
innermost reference pattern? -/
def hasEnvVar : List Char → Bool
  | [] => false
  | c :: rest =>
    if c = dollar then
      match rest with
      | [] => false
      | c2 :: rest2 =>
        if c2 = braceL then
          match matchBody rest2 with
          | some _ => true
          | none => hasEnvVar (c2 :: rest2)
        else hasEnvVar (c2 :: rest2)
    else hasEnvVar rest

/-- Embedding of `escapedVarRegex.ReplaceAllString(s, maskStart+"$1"+maskEnd)`:
mask every escaped reference `$${X}` as `\x00X\x01`. -/
def maskEscaped : List Char → List Char
  | [] => []
  | c :: c2 :: c3 :: rest3 =>
    if c = dollar ∧ c2 = dollar ∧ c3 = braceL then
      match matchBody rest3 with
      | some ⟨content, after, hp⟩ =>
        maskStartC :: (content ++ maskEndC :: maskEscaped after)
      | none => c :: maskEscaped (c2 :: c3 :: rest3)
    else c :: maskEscaped (c2 :: c3 :: rest3)
  | c :: rest => c :: maskEscaped rest
termination_by s => s.length
decreasing_by
  all_goals simp only [List.length_cons]
  all_goals omega

/-- Embedding of the two `strings.ReplaceAll` calls that unmask
`\x00` as `${` and `\x01` as `}`. -/
def unmask : List Char → List Char
  | [] => []
  | c :: rest =>
    if c = maskStartC then dollar :: braceL :: unmask rest
    else if c = maskEndC then braceR :: unmask rest
    else c :: unmask rest

/-- Main expansion loop of `expandEnvInScalar`: up to `fuel` passes
(10 in the source), stopping early when no reference pattern remains or a
pass produces no change, and returning the first resolution error.  The
environment is returned in every case because assignment side effects
survive an error in the source (they hit the process environment). -/
def expandPasses : Nat → Env → List Char →
    Except (List Char) (List Char) × Env
  | 0, env, s => (.ok s, env)
  | fuel + 1, env, s =>
    if hasEnvVar s = false then (.ok s, env)
    else
      let p := envReplace ⟨env, none⟩ s
      match p.1.err with
      | some e => (.error e, p.1.env)
      | none =>
        if s = p.2 then (.ok s, p.1.env)
        else expandPasses fuel p.1.env p.2

/-- Embedding of `expandEnvInScalar` (src/jamle.go lines 135-180): mask
escaped references (the source applies the masking substitution twice),
run up to 10 resolution passes, and unmask.  On a resolution error the
source returns before unmasking. -/
def expandEnvInScalar (env : Env) (input : List Char) :
    Except (List Char) (List Char) × Env :=
  let s1 := maskEscaped input
  let s2 := maskEscaped s1
  let r := expandPasses 10 env s2
  match r.1 with
  | .error e => (.error e, r.2)
  | .ok s => (.ok (unmask s), r.2)

/-- Kind value of scalar nodes in the yaml.v3 AST (`yaml.ScalarNode`). -/
def scalarKind : Nat := 8

/-- Tag that yaml.v3 attaches to implicitly-typed string scalars. -/
def strTag : List Char := "!!str".data

/-- Embedding of the yaml.v3 document node as used by `walkScalars`: kind,
style, tag, value and children (`Content`).  Comment fields are omitted
because the walker never reads or writes them. -/
inductive YNode where
  | mk (kind : Nat) (style : Nat) (tag : List Char) (value : List Char)
      (content : List YNode)

/-- Closure passed by `Unmarshal` to `walkScalars` (src/jamle.go lines
72-84): once a resolution error is recorded, return the scalar unchanged;
otherwise expand it, recording the first error and leaving the failing
scalar's text in place. -/
def expandFn (st : RState) (s : List Char) : RState × List Char :=
  match st.err with
  | some _ => (st, s)
  | none =>
    let r := expandEnvInScalar st.env s
    match r.1 with
    | .ok out => (⟨r.2, none⟩, out)
    | .error e => (⟨r.2, some e⟩, s)

mutual

/-- Embedding of `walkScalars` (src/jamle.go lines 108-130) composed with
the closure from `Unmarshal`: rewrite each scalar's value in document
order, clear the tag of a plain implicitly-string scalar whose value
changed, and recurse into the children. -/
def walkScalars (st : RState) : YNode → RState × YNode
  | .mk kind style tag value content =>
    if kind = scalarKind then
      let p := expandFn st value
      let tag1 := if style = 0 ∧ tag = strTag ∧ value ≠ p.2 then [] else tag
      let r := walkList p.1 content
      (r.1, .mk kind style tag1 p.2 r.2)
    else
      let r := walkList st content
      (r.1, .mk kind style tag value r.2)

/-- Walks the `Content` children left to right, threading the state. -/
def walkList (st : RState) : List YNode → RState × List YNode
  | [] => (st, [])
  | n :: rest =>
    let p := walkScalars st n
    let q := walkList p.1 rest
    (q.1, p.2 :: q.2)

end

/-- Embedding of the expansion phase of `Unmarshal` (src/jamle.go lines
61-104): walk the parsed tree; if any scalar failed to resolve, return
that first error — the destination value is then never decoded into.
Otherwise the rewritten tree proceeds to the external encoder/decoder.
The returned environment records the assignment side effects, which in
the source live in the process environment. -/
def unmarshalExpand (env : Env) (root : YNode) :
    Except (List Char) YNode × Env :=
  let p := walkScalars ⟨env, none⟩ root
  match p.1.err with
  | some e => (.error e, p.1.env)
  | none => (.ok p.2, p.1.env)

/-- Decoded value of a scalar, restricted to the fragment the claims
need. -/
inductive Decoded where
  | int (n : Nat)
  | str (s : List Char)
deriving DecidableEq

/-- Numeric value of a digit string. -/
def digitsToNat (s : List Char) : Nat :=
  s.foldl (fun a c => a * 10 + (c.toNat - 48)) 0

/-- Modelled from the spec: the final decoding of a scalar is performed by
the external serialization bridge (invopop/yaml over yaml.v3), which is
not part of this repository's sources.  Per the spec, when the walker has
cleared the tag the decoder re-infers the type from the new text ("clear
its inferred type tag so the downstream decoder re-infers the type
(integer, float, boolean, null, string) from the new text"), while a
scalar still tagged as a string stays a string.  Only the integer/string
fragment used by the claims is modelled. -/
def decodeScalar (tag : List Char) (value : List Char) : Decoded :=
  if tag = strTag then .str value
  else if value ≠ [] ∧ value.all Char.isDigit then .int (digitsToNat value)
  else .str value

/-! Helper lemmas shared by the claim theorems. -/

theorem cutColon_no_colon {name : List Char} (h : colonC ∉ name) :
    cutColon name = (name, [], false) := by
  induction name with
  | nil => rfl
  | cons c rest ih =>
    have hc : c ≠ colonC := fun hh => h (by simp [hh])
    have hr : colonC ∉ rest := fun hh => h (List.mem_cons_of_mem _ hh)
    simp [cutColon, hc, ih hr]

theorem cutColon_found {name : List Char} (h : colonC ∉ name)
    (rest : List Char) :
    cutColon (name ++ colonC :: rest) = (name, rest, true) := by
  induction name with
  | nil => simp [cutColon]
  | cons c t ih =>
    have hc : c ≠ colonC := fun hh => h (by simp [hh])
    have ht : colonC ∉ t := fun hh => h (List.mem_cons_of_mem _ hh)
    simp [cutColon, hc, ih ht]

theorem lookupEnv_setenv_self (env : Env) (n d : List Char) :
    lookupEnv (setenv env n d) n = some d := by
  induction env with
  | nil => simp [setenv, lookupEnv]
  | cons kv rest ih =>
    obtain ⟨k, v⟩ := kv
    by_cases hk : k = n
    · simp [setenv, hk, lookupEnv]
    · simp [setenv, hk, lookupEnv, ih]

theorem setenv_setenv (env : Env) (n d d' : List Char) :
    setenv (setenv env n d) n d' = setenv env n d' := by
  induction env with
  | nil => simp [setenv]
  | cons kv rest ih =>
    obtain ⟨k, v⟩ := kv
    by_cases hk : k = n
    · simp [setenv, hk]
    · simp [setenv, hk, ih]

/-! Claim theorems. -/

/-- C1: for every name N, the bare forms `${N}` and `${N:}` return the
value N is bound to (the empty string included) and the empty string when
N is unbound, never falling back; for the `:default`, `:-`, `:=` and `:?`
forms a binding to the empty string is treated identically to unbound:
the fallback, the assignment, or the error applies. -/
theorem bare_forms_return_binding_operator_forms_treat_empty_as_unset
    (env : Env) (name d0 : List Char) (c0 : Char) (ct : List Char)
    (hn : colonC ∉ name)
    (hc0 : ¬(c0 = '-' ∨ c0 = '=' ∨ c0 = '?')) :
    (resolveVariable env name = .ok ((lookupEnv env name).getD [], env))
    ∧ (resolveVariable env (name ++ [colonC]) =
        .ok ((lookupEnv env name).getD [], env))
    ∧ (lookupEnv env name = none ∨ lookupEnv env name = some [] →
        resolveVariable env (name ++ colonC :: c0 :: ct) = .ok (c0 :: ct, env)
        ∧ resolveVariable env (name ++ colonC :: '-' :: d0) = .ok (d0, env)
        ∧ resolveVariable env (name ++ colonC :: '=' :: d0) =
            .ok (d0, setenv env name d0)
        ∧ resolveVariable env (name ++ colonC :: '?' :: d0) =
            .error (requiredErr name
              (if d0 = [] then defaultReqMsg else d0))) := by
  refine ⟨?_, ?_, ?_⟩
  · cases hv : lookupEnv env name <;>
      simp [resolveVariable, cutColon_no_colon hn, hv]
  · have := cutColon_found hn []
    cases hv : lookupEnv env name <;>
      simp [resolveVariable, this, hv]
  · intro hempty
    have hcut := fun r => cutColon_found hn r
    rcases hempty with hv | hv <;>
      refine ⟨?_, ?_, ?_, ?_⟩ <;>
        simp [resolveVariable, hcut, hv, hc0]

/-- C2: resolving `${N:?message}` returns the bound value when it is
non-empty and otherwise fails with the error text carrying N and the
message, the empty message defaulting to "is not set or empty". -/
theorem required_form_errors_on_unset_or_empty
    (env : Env) (name msg : List Char) (hn : colonC ∉ name) :
    (∀ v, lookupEnv env name = some v → v ≠ [] →
        resolveVariable env (name ++ colonC :: '?' :: msg) = .ok (v, env))
    ∧ (lookupEnv env name = none ∨ lookupEnv env name = some [] →
        resolveVariable env (name ++ colonC :: '?' :: msg) =
          .error (requiredErr name
            (if msg = [] then defaultReqMsg else msg))) := by
  constructor
  · intro v hv hne
    simp [resolveVariable, cutColon_found hn, hv, hne]
  · intro hempty
    rcases hempty with hv | hv <;>
      simp [resolveVariable, cutColon_found hn, hv]

/-- C3: resolving `${N:=default}` returns the bound value untouched when
it is non-empty, and otherwise returns the default and binds N to it;
expanding the same reference twice with N initially unset writes the
binding once and returns the default both times. -/
theorem assign_form_writes_once_and_is_idempotent
    (env : Env) (name d : List Char) (hn : colonC ∉ name) :
    (∀ v, lookupEnv env name = some v → v ≠ [] →
        resolveVariable env (name ++ colonC :: '=' :: d) = .ok (v, env))
    ∧ (lookupEnv env name = none ∨ lookupEnv env name = some [] →
        resolveVariable env (name ++ colonC :: '=' :: d) =
          .ok (d, setenv env name d)
        ∧ lookupEnv (setenv env name d) name = some d)
    ∧ (lookupEnv env name = none →
        resolveVariable (setenv env name d)
          (name ++ colonC :: '=' :: d) = .ok (d, setenv env name d)) := by
  refine ⟨?_, ?_, ?_⟩
  · intro v hv hne
    simp [resolveVariable, cutColon_found hn, hv, hne]
  · intro hempty
    rcases hempty with hv | hv <;>
      exact ⟨by simp [resolveVariable, cutColon_found hn, hv],
        lookupEnv_setenv_self env name d⟩
  · intro hv
    by_cases hd : d = []
    · subst hd
      simp [resolveVariable, cutColon_found hn,
        lookupEnv_setenv_self env name [], setenv_setenv]
    · simp [resolveVariable, cutColon_found hn,
        lookupEnv_setenv_self env name d, hd]

/-- Witness for C1 at name `E` bound to the empty string: the bare forms
return the empty bound value, the four operator forms fall back. -/
theorem bare_forms_vs_operator_forms_witness :
    (colonC ∉ "E".data)
    ∧ (¬('z' = '-' ∨ 'z' = '=' ∨ 'z' = '?'))
    ∧ (lookupEnv [("E".data, [])] "E".data = none
        ∨ lookupEnv [("E".data, [])] "E".data = some [])
    ∧ (resolveVariable [("E".data, [])] "E".data =
        .ok ((lookupEnv [("E".data, [])] "E".data).getD [], [("E".data, [])]))
    ∧ (resolveVariable [("E".data, [])] ("E".data ++ colonC :: 'z' :: "1".data)
          = .ok ('z' :: "1".data, [("E".data, [])])
        ∧ resolveVariable [("E".data, [])]
            ("E".data ++ colonC :: '-' :: "d".data)
          = .ok ("d".data, [("E".data, [])])
        ∧ resolveVariable [("E".data, [])]
            ("E".data ++ colonC :: '=' :: "d".data)
          = .ok ("d".data, setenv [("E".data, [])] "E".data "d".data)
        ∧ resolveVariable [("E".data, [])]
            ("E".data ++ colonC :: '?' :: "d".data)
          = .error (requiredErr "E".data
              (if "d".data = [] then defaultReqMsg else "d".data))) := by
  refine ⟨by decide, by decide, by decide, ?_, ?_⟩
  · exact (bare_forms_return_binding_operator_forms_treat_empty_as_unset
      [("E".data, [])] "E".data "d".data 'z' "1".data
      (by decide) (by decide)).1
  · exact (bare_forms_return_binding_operator_forms_treat_empty_as_unset
      [("E".data, [])] "E".data "d".data 'z' "1".data
      (by decide) (by decide)).2.2 (by decide)

/-- Witness for C2: `${X:?}` errors with X unset and with X bound to the
empty string, and returns "ok" with X bound to "ok". -/
theorem required_form_witness :
    (colonC ∉ "X".data)
    ∧ resolveVariable [] ("X".data ++ colonC :: '?' :: []) =
        .error (requiredErr "X".data
          (if ([] : List Char) = [] then defaultReqMsg else []))
    ∧ resolveVariable [("X".data, [])] ("X".data ++ colonC :: '?' :: []) =
        .error (requiredErr "X".data
          (if ([] : List Char) = [] then defaultReqMsg else []))
    ∧ resolveVariable [("X".data, "ok".data)]
        ("X".data ++ colonC :: '?' :: []) =
        .ok ("ok".data, [("X".data, "ok".data)]) := by
  refine ⟨by decide, ?_, ?_, ?_⟩
  · exact (required_form_errors_on_unset_or_empty [] "X".data []
      (by decide)).2 (by decide)
  · exact (required_form_errors_on_unset_or_empty [("X".data, [])] "X".data []
      (by decide)).2 (by decide)
  · exact (required_form_errors_on_unset_or_empty [("X".data, "ok".data)]
      "X".data [] (by decide)).1 "ok".data (by decide) (by decide)

/-- Witness for C3: `${N:=d}` with N pre-set to "v" returns "v" without a
write; with N unset it writes once and returns "d" on both expansions. -/
theorem assign_form_witness :
    (colonC ∉ "N".data)
    ∧ resolveVariable [("N".data, "v".data)]
        ("N".data ++ colonC :: '=' :: "d".data) =
        .ok ("v".data, [("N".data, "v".data)])
    ∧ (resolveVariable [] ("N".data ++ colonC :: '=' :: "d".data) =
          .ok ("d".data, setenv [] "N".data "d".data)
        ∧ lookupEnv (setenv [] "N".data "d".data) "N".data = some "d".data)
    ∧ resolveVariable (setenv [] "N".data "d".data)
        ("N".data ++ colonC :: '=' :: "d".data) =
        .ok ("d".data, setenv [] "N".data "d".data) := by
  refine ⟨by decide, ?_, ?_, ?_⟩
  · exact (assign_form_writes_once_and_is_idempotent [("N".data, "v".data)]
      "N".data "d".data (by decide)).1 "v".data (by decide) (by decide)
  · exact (assign_form_writes_once_and_is_idempotent [] "N".data "d".data
      (by decide)).2.1 (by decide)
  · exact (assign_form_writes_once_and_is_idempotent [] "N".data "d".data
      (by decide)).2.2 (by decide)

/-- C4: nested references resolve innermost-first: `${A:-${B:-final}}`
yields "final" with neither A nor B bound, "sec" when B is bound to "sec"
(A unbound or empty), and "x" when A is bound to "x". -/
theorem nested_defaults_resolve_innermost_first (env : Env) :
    (lookupEnv env "A".data = none → lookupEnv env "B".data = none →
      expandEnvInScalar env "$\x7bA:-$\x7bB:-final\x7d\x7d".data =
        (.ok "final".data, env))
    ∧ ((lookupEnv env "A".data = none ∨ lookupEnv env "A".data = some []) →
        lookupEnv env "B".data = some "sec".data →
      expandEnvInScalar env "$\x7bA:-$\x7bB:-final\x7d\x7d".data =
        (.ok "sec".data, env))
    ∧ (lookupEnv env "A".data = some "x".data →
        (lookupEnv env "B".data = none
          ∨ lookupEnv env "B".data = some "sec".data) →
      expandEnvInScalar env "$\x7bA:-$\x7bB:-final\x7d\x7d".data =
        (.ok "x".data, env)) := by
  refine ⟨?_, ?_, ?_⟩
  · intro hA hB
    simp [expandEnvInScalar, expandPasses, envReplace, hasEnvVar, matchBody,
      takeNonBrace, applyVar, resolveVariable, cutColon, unmask, maskEscaped,
      braceL, braceR, dollar, colonC, maskStartC, maskEndC, hA, hB]
  · intro hA hB
    rcases hA with hA | hA <;>
      simp [expandEnvInScalar, expandPasses, envReplace, hasEnvVar, matchBody,
        takeNonBrace, applyVar, resolveVariable, cutColon, unmask, maskEscaped,
        braceL, braceR, dollar, colonC, maskStartC, maskEndC, hA, hB]
  · intro hA hB
    rcases hB with hB | hB <;>
      simp [expandEnvInScalar, expandPasses, envReplace, hasEnvVar, matchBody,
        takeNonBrace, applyVar, resolveVariable, cutColon, unmask, maskEscaped,
        braceL, braceR, dollar, colonC, maskStartC, maskEndC, hA, hB]

/-- Witness for C4 at concrete environments for the three scenarios. -/
theorem nested_defaults_witness :
    (lookupEnv ([] : Env) "A".data = none ∧ lookupEnv ([] : Env) "B".data = none)
    ∧ expandEnvInScalar [] "$\x7bA:-$\x7bB:-final\x7d\x7d".data =
        (.ok "final".data, [])
    ∧ expandEnvInScalar [("B".data, "sec".data)]
        "$\x7bA:-$\x7bB:-final\x7d\x7d".data =
        (.ok "sec".data, [("B".data, "sec".data)])
    ∧ expandEnvInScalar [("A".data, "x".data)]
        "$\x7bA:-$\x7bB:-final\x7d\x7d".data =
        (.ok "x".data, [("A".data, "x".data)]) := by
  refine ⟨⟨by decide, by decide⟩, ?_, ?_, ?_⟩
  · exact (nested_defaults_resolve_innermost_first []).1 (by decide) (by decide)
  · exact (nested_defaults_resolve_innermost_first
      [("B".data, "sec".data)]).2.1 (Or.inl (by decide)) (by decide)
  · exact (nested_defaults_resolve_innermost_first
      [("A".data, "x".data)]).2.2 (by decide) (Or.inl (by decide))

/-- C5: expansion performs at most 10 passes; it stops early when no
reference pattern remains or a pass produces no change; when the bound is
exhausted the unresolved text is kept and no error is raised; the
self-growing reference keeps its pattern after 10 passes yet returns
successfully, and `${R:-${R}}` with R unbound terminates within the
bound. -/
theorem expansion_pass_bound_and_early_stop :
    (∀ env s, expandPasses 0 env s = (.ok s, env))
    ∧ (∀ fuel env s, hasEnvVar s = false →
        expandPasses (fuel + 1) env s = (.ok s, env))
    ∧ (∀ fuel env s, hasEnvVar s = true →
        (envReplace ⟨env, none⟩ s).1.err = none →
        (envReplace ⟨env, none⟩ s).2 = s →
        expandPasses (fuel + 1) env s =
          (.ok s, (envReplace ⟨env, none⟩ s).1.env))
    ∧ expandEnvInScalar [("R".data, "$\x7bR\x7dx".data)] "$\x7bR\x7d".data =
        (.ok "$\x7bR\x7dxxxxxxxxxx".data, [("R".data, "$\x7bR\x7dx".data)])
    ∧ hasEnvVar "$\x7bR\x7dxxxxxxxxxx".data = true
    ∧ expandEnvInScalar [] "$\x7bR:-$\x7bR\x7d\x7d".data = (.ok [], []) := by
  refine ⟨fun env s => rfl, ?_, ?_, ?_, ?_, ?_⟩
  · intro fuel env s h
    simp [expandPasses, h]
  · intro fuel env s h1 h2 h3
    simp [expandPasses, h1, h2, h3]
  · simp [expandEnvInScalar, expandPasses, envReplace, hasEnvVar, matchBody,
      takeNonBrace, applyVar, resolveVariable, cutColon, unmask, maskEscaped,
      lookupEnv, braceL, braceR, dollar, colonC, maskStartC, maskEndC]
  · simp [hasEnvVar, matchBody, takeNonBrace, braceL, braceR, dollar]
  · simp [expandEnvInScalar, expandPasses, envReplace, hasEnvVar, matchBody,
      takeNonBrace, applyVar, resolveVariable, cutColon, unmask, maskEscaped,
      lookupEnv, braceL, braceR, dollar, colonC, maskStartC, maskEndC]

/-- Witness for C5: the early-stop cases at concrete inputs — a scalar
with no reference pattern, and a pass that is a fixpoint because the
variable's own value reproduces the reference text. -/
theorem expansion_pass_bound_witness :
    (hasEnvVar "plain".data = false
      ∧ expandPasses 3 [] "plain".data = (.ok "plain".data, []))
    ∧ (hasEnvVar "$\x7bA:-x\x7d".data = true
      ∧ expandPasses 3 [("A".data, "$\x7bA:-x\x7d".data)]
          "$\x7bA:-x\x7d".data =
        (.ok "$\x7bA:-x\x7d".data,
          (envReplace ⟨[("A".data, "$\x7bA:-x\x7d".data)], none⟩
            "$\x7bA:-x\x7d".data).1.env)) := by
  constructor
  · constructor
    · simp [hasEnvVar, matchBody, takeNonBrace, braceL, braceR, dollar]
    · exact expansion_pass_bound_and_early_stop.2.1 2 [] "plain".data
        (by simp [hasEnvVar, matchBody, takeNonBrace, braceL, braceR, dollar])
  · constructor
    · simp [hasEnvVar, matchBody, takeNonBrace, braceL, braceR, dollar]
    · exact expansion_pass_bound_and_early_stop.2.2.1 2
        [("A".data, "$\x7bA:-x\x7d".data)] "$\x7bA:-x\x7d".data
        (by simp [hasEnvVar, matchBody, takeNonBrace, braceL, braceR, dollar])
        (by simp [envReplace, hasEnvVar, matchBody, takeNonBrace, applyVar,
          resolveVariable, cutColon, lookupEnv, braceL, braceR, dollar,
          colonC])
        (by simp [envReplace, hasEnvVar, matchBody, takeNonBrace, applyVar,
          resolveVariable, cutColon, lookupEnv, braceL, braceR, dollar,
          colonC])

/-! Lemmas about the scanners, used for the escaping and identity
claims. -/

theorem takeNonBrace_flat (r : List Char) :
    ∀ X : List Char, braceL ∉ X → braceR ∉ X →
      takeNonBrace (X ++ braceR :: r) = (X, braceR :: r) := by
  intro X
  induction X with
  | nil => intro _ _; simp [takeNonBrace]
  | cons a t ih =>
    intro hl hr
    have ha : ¬(a = braceL ∨ a = braceR) := by
      rintro (h | h)
      · exact hl (by simp [h])
      · exact hr (by simp [h])
    have htl : braceL ∉ t := fun hh => hl (List.mem_cons_of_mem _ hh)
    have htr : braceR ∉ t := fun hh => hr (List.mem_cons_of_mem _ hh)
    simp [takeNonBrace, ha, ih htl htr]

theorem matchBody_flat (r : List Char) (X : List Char) (hne : X ≠ [])
    (hl : braceL ∉ X) (hr : braceR ∉ X) :
    ∃ hb : r.length + 2 ≤ (X ++ braceR :: r).length,
      matchBody (X ++ braceR :: r) = some ⟨X, r, hb⟩ := by
  have ht := takeNonBrace_flat r X hl hr
  cases X with
  | nil => exact absurd rfl hne
  | cons a t =>
    refine ⟨by simp, ?_⟩
    unfold matchBody
    split
    · rename_i heq
      rw [heq] at ht
      simp at ht
    · rename_i c0 content c after heq
      rw [heq] at ht
      simp only [Prod.mk.injEq, List.cons.injEq] at ht
      obtain ⟨⟨ht1, ht2⟩, ht3, ht4⟩ := ht
      subst ht1
      subst ht2
      subst ht3
      subst ht4
      simp
    · rename_i heq
      rw [heq] at ht
      simp at ht

theorem hasEnvVar_no_braceL (s : List Char) :
    braceL ∉ s → hasEnvVar s = false := by
  induction s using hasEnvVar.induct with
  | case1 => intro _; rfl
  | case2 => intro _; decide
  | case3 rest m hmb =>
    intro h
    exact absurd (by simp) h
  | case4 rest hmb ih =>
    intro h
    exact absurd (by simp) h
  | case5 c rest hc ih =>
    intro h
    have hr : braceL ∉ c :: rest := fun hh => h (List.mem_cons_of_mem _ hh)
    rw [hasEnvVar.eq_def]
    simp [hc, ih hr]
  | case6 c rest hc ih =>
    intro h
    have hr : braceL ∉ rest := fun hh => h (List.mem_cons_of_mem _ hh)
    rw [hasEnvVar.eq_def]
    simp [hc, ih hr]

theorem hasEnvVar_tail (c : Char) (rest : List Char)
    (h : hasEnvVar (c :: rest) = false) : hasEnvVar rest = false := by
  rw [hasEnvVar.eq_def] at h
  by_cases hc : c = dollar
  · subst hc
    cases rest with
    | nil => rfl
    | cons c2 rest2 =>
      by_cases h2 : c2 = braceL
      · subst h2
        cases hmb : matchBody rest2 with
        | some m => simp [hmb] at h
        | none => simpa [hmb] using h
      · simpa [h2] using h
  · simpa [hc] using h

theorem maskEscaped_id (s : List Char) :
    hasEnvVar s = false → maskEscaped s = s := by
  induction s using maskEscaped.induct with
  | case1 => intro _; simp [maskEscaped]
  | case2 c c2 c3 rest3 hcond content after hp hmb ih =>
    intro h
    obtain ⟨rfl, rfl, rfl⟩ := hcond
    exfalso
    rw [hasEnvVar.eq_def] at h
    simp [(show ¬dollar = braceL by decide)] at h
    rw [hasEnvVar.eq_def] at h
    simp [hmb] at h
  | case3 c c2 c3 rest3 hcond hmb ih =>
    intro h
    obtain ⟨rfl, rfl, rfl⟩ := hcond
    have ht := hasEnvVar_tail _ _ h
    simp [maskEscaped, hmb, ih ht]
  | case4 c c2 c3 rest3 hcond ih =>
    intro h
    have ht := hasEnvVar_tail _ _ h
    simp [maskEscaped, hcond, ih ht]
  | case5 c rest hshort ih =>
    intro h
    have ht := hasEnvVar_tail _ _ h
    cases rest with
    | nil => simp [maskEscaped]
    | cons c2 rest2 =>
      cases rest2 with
      | nil => simp [maskEscaped, ih ht]
      | cons c3 rest3 => exact absurd rfl (hshort c2 c3 rest3)

theorem unmask_append (a b : List Char) :
    unmask (a ++ b) = unmask a ++ unmask b := by
  induction a with
  | nil => rfl
  | cons c t ih =>
    by_cases h0 : c = maskStartC
    · simp [unmask, h0, ih]
    · by_cases h1 : c = maskEndC
      · subst h1
        simp [unmask, h0, ih]
      · simp [unmask, h0, h1, ih]

theorem unmask_id (s : List Char) :
    maskStartC ∉ s → maskEndC ∉ s → unmask s = s := by
  induction s with
  | nil => intro _ _; rfl
  | cons c t ih =>
    intro h0 h1
    have hc0 : c ≠ maskStartC := fun hh => h0 (by simp [hh])
    have hc1 : c ≠ maskEndC := fun hh => h1 (by simp [hh])
    have ht0 : maskStartC ∉ t := fun hh => h0 (List.mem_cons_of_mem _ hh)
    have ht1 : maskEndC ∉ t := fun hh => h1 (List.mem_cons_of_mem _ hh)
    simp [unmask, hc0, hc1, ih ht0 ht1]

/-- C6: expanding the escaped reference `$${X}` yields the literal text
`${X}` for every name X and every environment — the environment is
neither consulted nor changed — with the escaped reference surviving
resolution masked and being unmasked exactly once. -/
theorem escaped_reference_expands_to_literal (env : Env) (X : List Char)
    (hne : X ≠ []) (hbl : braceL ∉ X) (hbr : braceR ∉ X)
    (hm0 : maskStartC ∉ X) (hm1 : maskEndC ∉ X) :
    expandEnvInScalar env (dollar :: dollar :: braceL :: (X ++ [braceR])) =
      (.ok (dollar :: braceL :: (X ++ [braceR])), env) := by
  obtain ⟨hb, hmb⟩ := matchBody_flat [] X hne hbl hbr
  have h1 : maskEscaped (dollar :: dollar :: braceL :: (X ++ [braceR])) =
      maskStartC :: (X ++ [maskEndC]) := by
    simp [maskEscaped, hmb]
  have hbl2 : braceL ∉ maskStartC :: (X ++ [maskEndC]) := by
    intro hmem
    simp only [List.mem_cons, List.mem_append] at hmem
    rcases hmem with hmem | hmem | hmem
    · exact absurd hmem (by decide)
    · exact hbl hmem
    · simp at hmem
      exact absurd hmem (by decide)
  have h3 : hasEnvVar (maskStartC :: (X ++ [maskEndC])) = false :=
    hasEnvVar_no_braceL _ hbl2
  have h2 : maskEscaped (maskStartC :: (X ++ [maskEndC])) =
      maskStartC :: (X ++ [maskEndC]) := maskEscaped_id _ h3
  have h5 : unmask (maskStartC :: (X ++ [maskEndC])) =
      dollar :: braceL :: (X ++ [braceR]) := by
    simp [unmask, unmask_append, unmask_id X hm0 hm1,
      (show ¬maskEndC = maskStartC by decide)]
  simp [expandEnvInScalar, h1, h2, expandPasses, h3, h5]

/-- Witness for C6 at X bound in the environment: the binding is ignored
and the literal text comes back. -/
theorem escaped_reference_witness :
    ("X".data ≠ [] ∧ braceL ∉ "X".data ∧ braceR ∉ "X".data
      ∧ maskStartC ∉ "X".data ∧ maskEndC ∉ "X".data)
    ∧ expandEnvInScalar [("X".data, "bound".data)]
        (dollar :: dollar :: braceL :: ("X".data ++ [braceR])) =
        (.ok (dollar :: braceL :: ("X".data ++ [braceR])),
          [("X".data, "bound".data)]) := by
  refine ⟨⟨by decide, by decide, by decide, by decide, by decide⟩, ?_⟩
  exact escaped_reference_expands_to_literal [("X".data, "bound".data)]
    "X".data (by decide) (by decide) (by decide) (by decide) (by decide)

/-- C7 counterexample: the one-character scalar U+0000 contains no
reference pattern, yet expansion rewrites it to the two characters
`${`, so expansion is not the identity on every scalar without a
reference pattern. -/
theorem no_reference_identity_counterexample :
    hasEnvVar [maskStartC] = false
    ∧ expandEnvInScalar [] [maskStartC] = (.ok [dollar, braceL], [])
    ∧ ([dollar, braceL] : List Char) ≠ [maskStartC] := by
  refine ⟨?_, ?_, by decide⟩
  · simp [hasEnvVar, maskStartC, dollar]
  · simp [expandEnvInScalar, maskEscaped, expandPasses, hasEnvVar, unmask,
      maskStartC, maskEndC, dollar, braceL]

/-- C7 (amended): for every scalar that contains no reference pattern and
contains neither of the sentinel bytes U+0000 and U+0001 used for escape
masking, expansion is the identity and leaves the environment
untouched. -/
theorem no_reference_expansion_is_identity (env : Env) (s : List Char)
    (h : hasEnvVar s = false) (h0 : maskStartC ∉ s) (h1 : maskEndC ∉ s) :
    expandEnvInScalar env s = (.ok s, env) := by
  have hm := maskEscaped_id s h
  simp [expandEnvInScalar, hm, expandPasses, h, unmask_id s h0 h1]

/-- Witness for C7 (amended) on a plain scalar. -/
theorem no_reference_identity_witness :
    (hasEnvVar "plain $text".data = false
      ∧ maskStartC ∉ "plain $text".data ∧ maskEndC ∉ "plain $text".data)
    ∧ expandEnvInScalar [] "plain $text".data =
        (.ok "plain $text".data, []) := by
  refine ⟨⟨?_, by decide, by decide⟩, ?_⟩
  · simp [hasEnvVar, matchBody, takeNonBrace, braceL, braceR, dollar]
  · exact no_reference_expansion_is_identity [] "plain $text".data
      (by simp [hasEnvVar, matchBody, takeNonBrace, braceL, braceR, dollar])
      (by decide) (by decide)

/-! Walker lemmas and the walker-level claims. -/

mutual

theorem walkScalars_err_fixed (n : YNode) :
    ∀ (st : RState) (e : List Char), st.err = some e →
      walkScalars st n = (st, n) := by
  cases n with
  | mk kind style tag value content =>
    intro st e h
    have hc := walkList_err_fixed content st e h
    by_cases hk : kind = scalarKind
    · simp [walkScalars, hk, expandFn, h, hc]
    · simp [walkScalars, hk, hc]

theorem walkList_err_fixed (ns : List YNode) :
    ∀ (st : RState) (e : List Char), st.err = some e →
      walkList st ns = (st, ns) := by
  cases ns with
  | nil => intro st e h; simp [walkList]
  | cons n rest =>
    intro st e h
    simp [walkList, walkScalars_err_fixed n st e h,
      walkList_err_fixed rest st e h]

end

/-- C8: when expanding a scalar fails, the walk applies no further
changes (any node visited with the error recorded is returned untouched),
the expansion phase of Unmarshal returns that first failure instead of a
decoded document, and scalars rewritten before the failing one keep their
rewritten value — no rollback. -/
theorem walk_fail_fast_keeps_earlier_rewrites :
    (∀ (st : RState) (n : YNode) (e : List Char), st.err = some e →
        walkScalars st n = (st, n))
    ∧ walkScalars ⟨[], none⟩
        (.mk 2 0 "!!seq".data []
          [.mk 8 0 strTag "$\x7bA:=1\x7d".data [],
           .mk 8 0 strTag "$\x7bB:?boom\x7d".data [],
           .mk 8 0 strTag "$\x7bC:-x\x7d".data []]) =
        (⟨[("A".data, "1".data)], some (requiredErr "B".data "boom".data)⟩,
          .mk 2 0 "!!seq".data []
            [.mk 8 0 [] "1".data [],
             .mk 8 0 strTag "$\x7bB:?boom\x7d".data [],
             .mk 8 0 strTag "$\x7bC:-x\x7d".data []])
    ∧ unmarshalExpand []
        (.mk 2 0 "!!seq".data []
          [.mk 8 0 strTag "$\x7bA:=1\x7d".data [],
           .mk 8 0 strTag "$\x7bB:?boom\x7d".data [],
           .mk 8 0 strTag "$\x7bC:-x\x7d".data []]) =
        (.error (requiredErr "B".data "boom".data), [("A".data, "1".data)])
    ∧ unmarshalExpand []
        (.mk 2 0 "!!seq".data []
          [.mk 8 0 strTag "$\x7bB:?m1\x7d".data [],
           .mk 8 0 strTag "$\x7bC:?m2\x7d".data []]) =
        (.error (requiredErr "B".data "m1".data), []) := by
  refine ⟨fun st n e h => walkScalars_err_fixed n st e h, ?_, ?_, ?_⟩ <;>
    simp [unmarshalExpand, walkScalars, walkList, expandFn, expandEnvInScalar,
      expandPasses, envReplace, hasEnvVar, matchBody, takeNonBrace, applyVar,
      resolveVariable, cutColon, lookupEnv, setenv, unmask, maskEscaped,
      requiredErr, defaultReqMsg, strTag, scalarKind, braceL, braceR, dollar,
      colonC, maskStartC, maskEndC]

/-- Witness for C8: a walk entered with an error already recorded leaves
the node untouched. -/
theorem walk_fail_fast_witness :
    ((⟨[], some "e".data⟩ : RState).err = some "e".data)
    ∧ walkScalars ⟨[], some "e".data⟩
        (.mk 8 0 strTag "$\x7bZ:-1\x7d".data []) =
        (⟨[], some "e".data⟩, .mk 8 0 strTag "$\x7bZ:-1\x7d".data []) :=
  ⟨rfl, walk_fail_fast_keeps_earlier_rewrites.1 ⟨[], some "e".data⟩
    (.mk 8 0 strTag "$\x7bZ:-1\x7d".data []) "e".data rfl⟩

/-- C9: the walker clears a scalar's tag exactly when its value changed,
it had no explicit style and carried the generic string tag; so an
unquoted `${N:42}` with N unbound decodes as the integer 42, while the
quoted `"${N:42}"` (non-zero style) keeps its string tag and decodes as
the string "42".  Unchanged values, explicit styles and non-string tags
keep their tag. -/
theorem scalar_tag_cleared_only_for_changed_plain_strings
    (env env1 : Env) (style : Nat) (tag value out : List Char)
    (h : expandEnvInScalar env value = (.ok out, env1)) :
    (out = value →
      walkScalars ⟨env, none⟩ (.mk scalarKind style tag value []) =
        (⟨env1, none⟩, .mk scalarKind style tag value []))
    ∧ (value ≠ out → style = 0 → tag = strTag →
      walkScalars ⟨env, none⟩ (.mk scalarKind style tag value []) =
        (⟨env1, none⟩, .mk scalarKind style [] out []))
    ∧ (style ≠ 0 →
      walkScalars ⟨env, none⟩ (.mk scalarKind style tag value []) =
        (⟨env1, none⟩, .mk scalarKind style tag out []))
    ∧ (tag ≠ strTag →
      walkScalars ⟨env, none⟩ (.mk scalarKind style tag value []) =
        (⟨env1, none⟩, .mk scalarKind style tag out []))
    ∧ (walkScalars ⟨[], none⟩
        (.mk scalarKind 0 strTag "$\x7bN:42\x7d".data []) =
          (⟨[], none⟩, .mk scalarKind 0 [] "42".data [])
      ∧ decodeScalar [] "42".data = .int 42)
    ∧ (walkScalars ⟨[], none⟩
        (.mk scalarKind 2 strTag "$\x7bN:42\x7d".data []) =
          (⟨[], none⟩, .mk scalarKind 2 strTag "42".data [])
      ∧ decodeScalar strTag "42".data = .str "42".data) := by
  refine ⟨?_, ?_, ?_, ?_, ⟨?_, by decide⟩, ⟨?_, by decide⟩⟩
  · intro hsame
    subst hsame
    simp [walkScalars, walkList, expandFn, h]
  · intro hdiff hst htag
    subst hst
    subst htag
    simp [walkScalars, walkList, expandFn, h, hdiff]
  · intro hst
    simp [walkScalars, walkList, expandFn, h, hst]
  · intro htag
    simp [walkScalars, walkList, expandFn, h, htag]
  · simp [walkScalars, walkList, expandFn, expandEnvInScalar, expandPasses,
      envReplace, hasEnvVar, matchBody, takeNonBrace, applyVar,
      resolveVariable, cutColon, lookupEnv, unmask, maskEscaped, strTag,
      scalarKind, braceL, braceR, dollar, colonC, maskStartC, maskEndC]
  · simp [walkScalars, walkList, expandFn, expandEnvInScalar, expandPasses,
      envReplace, hasEnvVar, matchBody, takeNonBrace, applyVar,
      resolveVariable, cutColon, lookupEnv, unmask, maskEscaped, strTag,
      scalarKind, braceL, braceR, dollar, colonC, maskStartC, maskEndC]

/-- Witness for C9: an unquoted `${P:8080}` scalar gets its tag cleared
after rewriting. -/
theorem scalar_tag_witness :
    (expandEnvInScalar [] "$\x7bP:8080\x7d".data = (.ok "8080".data, [])
      ∧ "$\x7bP:8080\x7d".data ≠ "8080".data)
    ∧ walkScalars ⟨[], none⟩
        (.mk scalarKind 0 strTag "$\x7bP:8080\x7d".data []) =
        (⟨[], none⟩, .mk scalarKind 0 [] "8080".data []) := by
  refine ⟨⟨?_, by decide⟩, ?_⟩
  · simp [expandEnvInScalar, expandPasses, envReplace, hasEnvVar, matchBody,
      takeNonBrace, applyVar, resolveVariable, cutColon, lookupEnv, unmask,
      maskEscaped, braceL, braceR, dollar, colonC, maskStartC, maskEndC]
  · exact (scalar_tag_cleared_only_for_changed_plain_strings [] [] 0 strTag
      "$\x7bP:8080\x7d".data "8080".data
      (by simp [expandEnvInScalar, expandPasses, envReplace, hasEnvVar,
        matchBody, takeNonBrace, applyVar, resolveVariable, cutColon,
        lookupEnv, unmask, maskEscaped, braceL, braceR, dollar, colonC,
        maskStartC, maskEndC])).2.1 (by decide) rfl rfl

/-- C10: assignment side effects performed before a required-variable
failure persist — in an earlier match of the same pass, in an earlier
scalar of the document, and in an earlier pass of the same scalar — so
the error is not atomic with respect to the environment. -/
theorem assign_writes_persist_across_failure :
    expandEnvInScalar [] "$\x7bA:=1\x7d$\x7bB:?\x7d".data =
      (.error (requiredErr "B".data defaultReqMsg), [("A".data, "1".data)])
    ∧ unmarshalExpand []
        (.mk 2 0 "!!seq".data []
          [.mk 8 0 strTag "$\x7bA:=2\x7d".data [],
           .mk 8 0 strTag "$\x7bB:?\x7d".data []]) =
        (.error (requiredErr "B".data defaultReqMsg), [("A".data, "2".data)])
    ∧ expandEnvInScalar [] "$\x7bB:?$\x7bA:=3\x7d\x7d".data =
      (.error (requiredErr "B".data "3".data), [("A".data, "3".data)]) := by
  refine ⟨?_, ?_, ?_⟩ <;>
    simp [unmarshalExpand, walkScalars, walkList, expandFn, expandEnvInScalar,
      expandPasses, envReplace, hasEnvVar, matchBody, takeNonBrace, applyVar,
      resolveVariable, cutColon, lookupEnv, setenv, unmask, maskEscaped,
      requiredErr, defaultReqMsg, strTag, scalarKind, braceL, braceR, dollar,
      colonC, maskStartC, maskEndC]

end Jamle
